import Mathlib

/-!
A shallow embedding of the `pls` package manager core.

This file embeds the core of the `pls` package manager (archive codec,
manifest parsers, project detection, update diffing, batch install, the
acquisition resolver, the foreign-package converter and the repository
index regeneration) as executable Lean definitions, and proves the
testable properties about them.

Rust strings are modelled as `List Char`; byte strings as `List Nat`.
Filesystem reads are modelled as explicit function parameters
(`String → Option String` for "read the file if it exists and is readable",
et cetera). The Unicode-aware Rust `trim` is modelled on its ASCII fragment,
which covers every manifest the grammars accept.
-/

namespace Pls

/-! ## Rust string primitives, modelled over `List Char` -/

/-- ASCII fragment of Rust `char::is_whitespace`. -/
def isWsChar (c : Char) : Bool :=
  c == ' ' || (9 ≤ c.toNat && c.toNat ≤ 13)

/-- Drop matching characters from the end of a list. -/
def dropEndWhile (p : Char → Bool) (l : List Char) : List Char :=
  (l.reverse.dropWhile p).reverse

/-- Rust `str::trim` (ASCII fragment). -/
def trimWs (l : List Char) : List Char :=
  dropEndWhile isWsChar (l.dropWhile isWsChar)

/-- Rust `str::trim_matches(pat)`: strip matching chars from both ends. -/
def trimMatches (p : Char → Bool) (l : List Char) : List Char :=
  dropEndWhile p (l.dropWhile p)

/-- Rust `str::starts_with(pat)` for a literal pattern. -/
def startsWithL : List Char → List Char → Bool
  | [], _ => true
  | _ :: _, [] => false
  | p :: ps, c :: cs => if p = c then startsWithL ps cs else false

/-- Rust `str::ends_with(pat)` for a literal pattern. -/
def endsWithL (pat s : List Char) : Bool :=
  startsWithL pat.reverse s.reverse

/-- Rust `str::split_once(pat)`: split at the first occurrence of `pat`,
the pattern itself removed. -/
def splitOnceL (pat : List Char) : List Char → Option (List Char × List Char)
  | [] => if pat = [] then some ([], []) else none
  | c :: rest =>
    if startsWithL pat (c :: rest) then some ([], (c :: rest).drop pat.length)
    else
      match splitOnceL pat rest with
      | some (a, b) => some (c :: a, b)
      | none => none

/-- Rust `str::split(sep)` for a character separator (keeps empty pieces). -/
def splitCharAux (sep : Char) (cur : List Char) : List Char → List (List Char)
  | [] => [cur.reverse]
  | c :: rest =>
    if c = sep then cur.reverse :: splitCharAux sep [] rest
    else splitCharAux sep (c :: cur) rest

/-- Rust `str::split(sep)` for a character separator. -/
def splitChar (sep : Char) (s : List Char) : List (List Char) :=
  splitCharAux sep [] s

/-- Pieces of a split on a whitespace run (including empty pieces). -/
def splitWsRaw (cur : List Char) : List Char → List (List Char)
  | [] => [cur.reverse]
  | c :: rest =>
    if isWsChar c then cur.reverse :: splitWsRaw [] rest
    else splitWsRaw (c :: cur) rest

/-- Rust `str::split_whitespace`: whitespace-separated tokens, no empties. -/
def splitWsL (s : List Char) : List (List Char) :=
  (splitWsRaw [] s).filter (fun t => !t.isEmpty)

/-- One trailing carriage return stripped, as Rust `str::lines` does. -/
def stripCR (l : List Char) : List Char :=
  match l.getLast? with
  | some c => if c = '\r' then l.dropLast else l
  | none => l

/-- Rust `str::lines`: split on newline; every piece that was terminated
by a newline loses one trailing carriage return; a final piece not
terminated by a newline is kept as is, and dropped when empty. -/
def rustLines (s : String) : List (List Char) :=
  let parts := splitChar '\n' s.toList
  let terminated := parts.dropLast.map stripCR
  match parts.getLast? with
  | some [] => terminated
  | some last => terminated ++ [last]
  | none => terminated

/-- Rust `str::to_lowercase` (ASCII fragment). -/
def toLowerL (l : List Char) : List Char := l.map Char.toLower

/-- Rust `str::to_uppercase` (ASCII fragment). -/
def toUpperL (l : List Char) : List Char := l.map Char.toUpper

/-- Rust `str::trim_end_matches(pat)` for a literal pattern: strip the
suffix repeatedly while it matches. Fuel-indexed; `s.length` steps always
suffice since each strip removes at least one character. -/
def stripSuffixRepFuel (pat : List Char) : Nat → List Char → List Char
  | 0, s => s
  | fuel + 1, s =>
    if pat ≠ [] ∧ endsWithL pat s then
      stripSuffixRepFuel pat fuel (s.take (s.length - pat.length))
    else s

/-- Rust `str::trim_end_matches(pat)` for a literal pattern. -/
def stripSuffixRep (pat s : List Char) : List Char :=
  stripSuffixRepFuel pat s.length s

/-- The apostrophe character (Meson-style quoting). -/
def squote : Char := Char.ofNat 39

/-- The double-quote character. -/
def dquote : Char := Char.ofNat 34

/-- The first token enclosed in single quotes, as the two successive
single-quote `find` probes do in the Meson grammar. -/
def firstQuoted (s : List Char) : Option (List Char) :=
  match splitOnceL [squote] s with
  | some (_, rest) =>
    match splitOnceL [squote] rest with
    | some (inner, _) => some inner
    | none => none
  | none => none

/-! ## Manifest data model and parsers (src/types.rs) -/

/-- `PackageInfo` from src/types.rs: one parsed manifest. -/
structure PackageInfo where
  name : String
  version : String
  depend : List String
  deriving Repr, DecidableEq

namespace PackageInfo

/-- Loop state of `parse_info`: the `name`, `version`, `depend` locals. -/
def infoStep (st : List Char × List Char × List (List Char)) (line : List Char) :
    List Char × List Char × List (List Char) :=
  let l := trimWs line
  match splitOnceL (' ' :: '=' :: [' ']) l with
  | some (key, value) =>
    if key = "name".toList then (value, st.2.1, st.2.2)
    else if key = "version".toList then (st.1, value, st.2.2)
    else if key = "depend".toList then (st.1, st.2.1, st.2.2 ++ [value])
    else st
  | none => st

/-- `PackageInfo::parse_info` (src/types.rs lines 32-49): `key = value`
lines, repeated `depend` accumulates, other keys ignored, no defaults. -/
def parse_info (content : String) : PackageInfo :=
  let st := (rustLines content).foldl infoStep ([], [], [])
  ⟨String.mk st.1, String.mk st.2.1, st.2.2.map String.mk⟩

/-- Loop state of `parse_cargo_toml`: `name`, `version`, `depend`,
`section`. -/
def cargoStep (st : List Char × List Char × List (List Char) × List Char)
    (line : List Char) : List Char × List Char × List (List Char) × List Char :=
  let l := trimWs line
  if startsWithL ['['] l then
    (st.1, st.2.1, st.2.2.1, trimMatches (fun c => c == '[' || c == ']') l)
  else if st.2.2.2 = "package".toList then
    match splitOnceL (' ' :: '=' :: [' ']) l with
    | some (key, value) =>
      if key = "name".toList then
        (trimMatches (· == dquote) value, st.2.1, st.2.2.1, st.2.2.2)
      else if key = "version".toList then
        (st.1, trimMatches (· == dquote) value, st.2.2.1, st.2.2.2)
      else st
    | none => st
  else if st.2.2.2 = "dependencies".toList then
    match splitOnceL (' ' :: '=' :: [' ']) l with
    | some (depName, _) => (st.1, st.2.1, st.2.2.1 ++ [trimWs depName], st.2.2.2)
    | none => st
  else st

/-- `PackageInfo::parse_cargo_toml` (src/types.rs lines 56-81):
section-delimited grammar; `name`/`version` read inside `[package]` with
quotes stripped, every `key = value` line inside `[dependencies]`
contributes the trimmed key; no defaults. -/
def parse_cargo_toml (content : String) : PackageInfo :=
  let st := (rustLines content).foldl cargoStep ([], [], [], [])
  ⟨String.mk st.1, String.mk st.2.1, st.2.2.1.map String.mk⟩

/-- First token after a token spelling `VERSION` (case-insensitive) that
has a successor, as the indexed loop in `parse_cmake` does. -/
def findVersionTok : List (List Char) → Option (List Char)
  | p :: q :: rest =>
    if toUpperL p = "VERSION".toList then some q else findVersionTok (q :: rest)
  | _ => none

/-- Loop state of `parse_cmake`: the `name` and `version` locals before
the default is applied. -/
def cmakeStep (st : List Char × List Char) (line : List Char) :
    List Char × List Char :=
  let l := trimWs line
  if startsWithL "project(".toList (toLowerL l) then
    let inner := trimWs (dropEndWhile (· == ')') ((l.dropWhile (· != '(')).dropWhile (· == '(')))
    let parts := splitWsL inner
    let name :=
      match parts with
      | [] => st.1
      | p :: _ => trimMatches (· == dquote) p
    let version :=
      match findVersionTok parts with
      | some v => trimMatches (· == dquote) v
      | none => st.2
    (name, version)
  else st

/-- The `name`/`version` scan of `parse_cmake` before the version default. -/
def cmakeScan (content : String) : List Char × List Char :=
  (rustLines content).foldl cmakeStep ([], [])

/-- `PackageInfo::parse_cmake` (src/types.rs lines 83-115): scans for a
case-insensitive `project(...)`; first token is the name, a token spelled
`VERSION` is followed by the version; version defaults to `0.1.0`. -/
def parse_cmake (content : String) : PackageInfo :=
  let st := cmakeScan content
  ⟨String.mk st.1, if st.2 = [] then "0.1.0" else String.mk st.2, []⟩

/-- Loop state of `parse_meson`: the `name` and `version` locals before
the default is applied. -/
def mesonStep (st : List Char × List Char) (line : List Char) :
    List Char × List Char :=
  let l := trimWs line
  if startsWithL "project(".toList l then
    let name :=
      match firstQuoted l with
      | some n => n
      | none => st.1
    let version :=
      match splitOnceL "version:".toList l with
      | some (_, afterVer) =>
        match firstQuoted afterVer with
        | some v => v
        | none => st.2
      | none => st.2
    (name, version)
  else st

/-- The `name`/`version` scan of `parse_meson` before the version default. -/
def mesonScan (content : String) : List Char × List Char :=
  (rustLines content).foldl mesonStep ([], [])

/-- `PackageInfo::parse_meson` (src/types.rs lines 117-146): scans for a
`project(` line; name is the first single-quoted token, version the quoted
token after `version:`; version defaults to `0.1.0`. -/
def parse_meson (content : String) : PackageInfo :=
  let st := mesonScan content
  ⟨String.mk st.1, if st.2 = [] then "0.1.0" else String.mk st.2, []⟩

/-- Strip surrounding double quotes, then surrounding single quotes. -/
def unquote (l : List Char) : List Char :=
  trimMatches (· == squote) (trimMatches (· == dquote) l)

/-- Loop state of `parse_pls_toml`: `name`, `version`, `depend`. -/
def plsStep (st : List Char × List Char × List (List Char)) (line : List Char) :
    List Char × List Char × List (List Char) :=
  let l := trimWs line
  match splitOnceL ['='] l with
  | some (k, v) =>
    let key := trimWs k
    let value := unquote (trimWs v)
    if key = "name".toList then (value, st.2.1, st.2.2)
    else if key = "version".toList then (st.1, value, st.2.2)
    else if key = "depend".toList ∨ key = "deps".toList then
      if startsWithL ['['] value then
        let inner := trimMatches (fun c => c == '[' || c == ']') value
        let deps := (splitChar ',' inner).foldl
          (fun acc d =>
            let d := unquote (trimWs d)
            if d = [] then acc else acc ++ [d]) []
        (st.1, st.2.1, st.2.2 ++ deps)
      else (st.1, st.2.1, st.2.2 ++ [value])
    else st
  | none => st

/-- The `name`/`version`/`depend` scan of `parse_pls_toml` before the
version default. -/
def plsScan (content : String) : List Char × List Char × List (List Char) :=
  (rustLines content).foldl plsStep ([], [], [])

/-- `PackageInfo::parse_pls_toml` (src/types.rs lines 148-184):
`key=value` lines with optional quoting; `depend`/`deps` accept a single
value or a bracketed comma-separated list; version defaults to `0.1.0`. -/
def parse_pls_toml (content : String) : PackageInfo :=
  let st := plsScan content
  ⟨String.mk st.1, if st.2.1 = [] then "0.1.0" else String.mk st.2.1,
    st.2.2.map String.mk⟩

end PackageInfo

/-! ## The duplicated parsers in the legacy monolithic module
(src/main.rs lines 20-77) -/

namespace MainSrc

/-- Loop state of the legacy `parse_info` (src/main.rs): the `name`,
`version`, `depend` locals. -/
def infoStep (st : List Char × List Char × List (List Char)) (line : List Char) :
    List Char × List Char × List (List Char) :=
  let l := trimWs line
  match splitOnceL (' ' :: '=' :: [' ']) l with
  | some (key, value) =>
    if key = "name".toList then (value, st.2.1, st.2.2)
    else if key = "version".toList then (st.1, value, st.2.2)
    else if key = "depend".toList then (st.1, st.2.1, st.2.2 ++ [value])
    else st
  | none => st

/-- `PackageInfo::parse_info` as duplicated in src/main.rs lines 20-41. -/
def parse_info (content : String) : PackageInfo :=
  let st := (rustLines content).foldl infoStep ([], [], [])
  ⟨String.mk st.1, String.mk st.2.1, st.2.2.map String.mk⟩

/-- Loop state of the legacy `parse_cargo_toml` (src/main.rs): `name`,
`version`, `depend`, `section`. -/
def cargoStep (st : List Char × List Char × List (List Char) × List Char)
    (line : List Char) : List Char × List Char × List (List Char) × List Char :=
  let l := trimWs line
  if startsWithL ['['] l then
    (st.1, st.2.1, st.2.2.1, trimMatches (fun c => c == '[' || c == ']') l)
  else if st.2.2.2 = "package".toList then
    match splitOnceL (' ' :: '=' :: [' ']) l with
    | some (key, value) =>
      if key = "name".toList then
        (trimMatches (· == dquote) value, st.2.1, st.2.2.1, st.2.2.2)
      else if key = "version".toList then
        (st.1, trimMatches (· == dquote) value, st.2.2.1, st.2.2.2)
      else st
    | none => st
  else if st.2.2.2 = "dependencies".toList then
    match splitOnceL (' ' :: '=' :: [' ']) l with
    | some (depName, _) => (st.1, st.2.1, st.2.2.1 ++ [trimWs depName], st.2.2.2)
    | none => st
  else st

/-- `PackageInfo::parse_cargo_toml` as duplicated in src/main.rs
lines 48-77. -/
def parse_cargo_toml (content : String) : PackageInfo :=
  let st := (rustLines content).foldl cargoStep ([], [], [], [])
  ⟨String.mk st.1, String.mk st.2.1, st.2.2.1.map String.mk⟩

end MainSrc

/-! ## Project detection (src/commands.rs lines 120-169)

The filesystem is modelled by `fs : String → Option String` mapping a
candidate manifest filename in the project directory to its content;
`none` means the file is missing or unreadable (`read_to_string` failed),
in which case the source falls through to the next candidate. -/

/-- `ProjectType` from src/commands.rs. -/
inductive ProjectType where
  | Rust
  | CMake
  | Meson
  | PlsToml
  deriving Repr, DecidableEq

/-- One probe of `detect_project`: if the candidate file is readable and
its parse has a non-empty name, return it. -/
def probe (ty : ProjectType) (parse : String → PackageInfo)
    (content : Option String) : Option (ProjectType × PackageInfo) :=
  match content with
  | some c =>
    let pkg := parse c
    if pkg.name ≠ "" then some (ty, pkg) else none
  | none => none

/-- `detect_project` (src/commands.rs lines 127-169): probe `Cargo.toml`,
then `CMakeLists.txt`, then `meson.build`, then `pls.toml`; the first that
exists, reads, and parses to a non-empty name wins. -/
def detect_project (fs : String → Option String) :
    Option (ProjectType × PackageInfo) :=
  match probe .Rust PackageInfo.parse_cargo_toml (fs "Cargo.toml") with
  | some r => some r
  | none =>
    match probe .CMake PackageInfo.parse_cmake (fs "CMakeLists.txt") with
    | some r => some r
    | none =>
      match probe .Meson PackageInfo.parse_meson (fs "meson.build") with
      | some r => some r
      | none =>
        match probe .PlsToml PackageInfo.parse_pls_toml (fs "pls.toml") with
        | some r => some r
        | none => none

/-- The fixed candidate order of the spec (§4.2): file name and grammar per
project type, in detection order. -/
def detectionOrder : List (ProjectType × String × (String → PackageInfo)) :=
  [(.Rust, "Cargo.toml", PackageInfo.parse_cargo_toml),
   (.CMake, "CMakeLists.txt", PackageInfo.parse_cmake),
   (.Meson, "meson.build", PackageInfo.parse_meson),
   (.PlsToml, "pls.toml", PackageInfo.parse_pls_toml)]

/-- Detection as the spec words it (§4.2): "the first directory entry that
exists and parses to a non-empty name wins", over the fixed order. -/
def detectSpec (fs : String → Option String) :
    Option (ProjectType × PackageInfo) :=
  detectionOrder.findSome? (fun cand => probe cand.1 cand.2.2 (fs cand.2.1))

/-! ## Archive codec (src/utils.rs lines 10-29)

`create_package` serializes a directory tree through the external
tar+zstd stream; `extract_package` destructively replaces the destination
and expands the stream. A directory tree is modelled as a list of
(relative path, content) byte strings. Modelled from the spec: the
tar+zstd stream format itself is library code absent from src/, so the
"single compressed-stream file" of §3/§4.1 is modelled as a
length-prefixed framing of the entries, one entry after another. -/

/-- A directory tree: relative paths paired with file contents, as bytes. -/
abbrev FileTree := List (List Nat × List Nat)

/-- One archive entry: path length, path bytes, content length, content
bytes. -/
def encodeEntry (e : List Nat × List Nat) : List Nat :=
  e.1.length :: (e.1 ++ (e.2.length :: e.2))

/-- `create_package` (src/utils.rs lines 21-29): serialize the whole
source tree into one archive stream. -/
def create_package (sourceDir : FileTree) : List Nat :=
  sourceDir.foldr (fun e acc => encodeEntry e ++ acc) []

/-- Decode successive archive entries; `none` on a truncated stream.
Fuel-indexed; `stream.length` steps always suffice since every entry
consumes at least one element. -/
def decodeEntries : Nat → List Nat → Option FileTree
  | _, [] => some []
  | 0, _ :: _ => none
  | fuel + 1, n :: rest =>
    let p := rest.take n
    let r1 := rest.drop n
    if p.length = n then
      match r1 with
      | [] => none
      | m :: r2 =>
        let c := r2.take m
        let r3 := r2.drop m
        if c.length = m then
          match decodeEntries fuel r3 with
          | some entries => some ((p, c) :: entries)
          | none => none
        else none
    else none

/-- `extract_package` (src/utils.rs lines 10-19): remove the destination
tree, recreate it, and expand the archive beneath it. The previous
destination content is discarded whatever it was; `none` models the
`BrokenArchive` failure on an invalid stream. -/
def extract_package (archive : List Nat) (_prevDest : FileTree) :
    Option FileTree :=
  decodeEntries archive.length archive

/-! ## Repository index and update plan (src/types.rs lines 6-23,
src/commands.rs lines 388-455) -/

/-- `PackageMeta` from src/types.rs. -/
structure PackageMeta where
  version : String
  size : Nat
  sha256 : String
  deps : List String
  desc : String
  deriving Repr, DecidableEq

/-- `RepoIndex` from src/types.rs; the two `HashMap`s are modelled as
association lists with unique keys. -/
structure RepoIndex where
  version : Nat
  updated : String
  packages : List (String × PackageMeta)
  bundles : List (String × List String)
  deriving Repr, DecidableEq

/-- `HashMap::get` on the modelled `packages` map. -/
def lookupPkg (packages : List (String × PackageMeta)) (name : String) :
    Option PackageMeta :=
  (packages.find? (fun e => e.1 = name)).map (fun e => e.2)

/-- `HashMap::get` on the modelled `bundles` map. -/
def lookupBundle (bundles : List (String × List String)) (name : String) :
    Option (List String) :=
  (bundles.find? (fun e => e.1 = name)).map (fun e => e.2)

/-- The `to_update` loop of `cmd_update` (src/commands.rs lines 414-423):
for each installed (name, localVersion), push the name if the remote
index lists it with a different version string. -/
def computeUpdatePlan (index : RepoIndex) (installed : List (String × String)) :
    List String :=
  installed.foldl
    (fun acc nv =>
      match lookupPkg index.packages nv.1 with
      | some remote => if remote.version ≠ nv.2 then acc ++ [nv.1] else acc
      | none => acc) []

/-! ## Batch install (src/commands.rs lines 432-452 and 477-502)

The per-package install is modelled by `install : String → Except String
Unit`, the outcome of `cmd_install` for each name in the fixed world of
one batch run. Both the update loop and the bundle loop have this exact
shape: strictly sequential, counting successes and accumulating failed
names, never aborting. -/

/-- The shared batch loop: (number succeeded, failed names in order). -/
def runBatch (install : String → Except String Unit) (pkgs : List String) :
    Nat × List String :=
  pkgs.foldl
    (fun st pkg =>
      match install pkg with
      | .ok _ => (st.1 + 1, st.2)
      | .error _ => (st.1, st.2 ++ [pkg])) (0, [])

/-- `cmd_bundle` (src/commands.rs lines 457-505) after the index fetch:
resolve the bundle, reject a missing or empty one, then run the batch. -/
def cmd_bundle (index : RepoIndex) (bundleName : String)
    (install : String → Except String Unit) : Except String (Nat × List String) :=
  match lookupBundle index.bundles bundleName with
  | none => .error ("bundle " ++ bundleName ++ " not found in repo")
  | some packages =>
    if packages.isEmpty then .error ("bundle " ++ bundleName ++ " is empty")
    else .ok (runBatch install packages)

/-- `cmd_update` (src/commands.rs lines 388-455) after the index fetch and
the store scan: compute the plan and run the batch over it. Packages
outside the plan are never passed to `install`. -/
def cmd_update (index : RepoIndex) (installed : List (String × String))
    (install : String → Except String Unit) : Nat × List String :=
  runBatch install (computeUpdatePlan index installed)

/-! ## Local store listing (src/commands.rs lines 93-118)

The store is modelled by the list of entry directory names and by
`readInfo : String → Option String`, the result of reading the `info`
file of an entry (`none`: missing or unreadable, so `PackageInfo::from_file`
returns `Err` and the entry is skipped). `readDirResult = none` models a
`read_dir` failure. -/

/-- `cmd_list` (src/commands.rs lines 93-118), returning the reported
count of installed packages. -/
def cmd_list (dbExists : Bool) (readDirResult : Option (List String))
    (readInfo : String → Option String) : Except String Nat :=
  if !dbExists then .ok 0
  else
    match readDirResult with
    | none => .error "could not read package database"
    | some entries =>
      .ok (entries.foldl
        (fun count e =>
          match readInfo e with
          | some _ => count + 1
          | none => count) 0)

/-! ## Acquisition resolver (src/utils.rs lines 31-38,
src/network.rs lines 121-148)

Filesystem existence is modelled by `fsExists : String → Bool`; the
fetched repository index by an explicit `RepoIndex` value (the claims
below concern the successful-fetch path). The resolution outcome is the
action the source takes: use the local path, hand off to the foreign
converter (`download_deb`), download from the repository, or fail. -/

/-- `resolve_package_path` (src/utils.rs lines 31-38): a path-looking
input that exists resolves to itself; anything else to `none`. -/
def resolve_package_path (fsExists : String → Bool) (input : String) :
    Option String :=
  if input.toList.contains '/' || endsWithL ".pls".toList input.toList then
    if fsExists input then some input else none
  else none

/-- The package-name computation on the deb branch of
`resolve_or_download`: last path segment, repeated `.deb` suffix
stripped, first `_`-separated field. -/
def debName (name : String) : String :=
  let base :=
    match (splitChar '/' name.toList).getLast? with
    | some b => b
    | none => name.toList
  let trimmed := stripSuffixRep ".deb".toList base
  match splitChar '_' trimmed with
  | f :: _ => String.mk f
  | [] => String.mk trimmed

/-- Outcome of `resolve_or_download`. `errNotFound` carries the offending
identifier; the source wraps it in the quoted not-found message. -/
inductive Resolution where
  | usePath (path : String)
  | convertDeb (url pkgName : String)
  | downloadRepo (name : String)
  | errNotFound (name : String)
  deriving Repr, DecidableEq

/-- `resolve_or_download` (src/network.rs lines 121-148): local path
first; then the deb/URL branch into the foreign converter; then a
repository lookup; else a not-found error. -/
def resolve_or_download (fsExists : String → Bool) (index : RepoIndex)
    (name : String) : Resolution :=
  match resolve_package_path fsExists name with
  | some path => .usePath path
  | none =>
    if endsWithL ".deb".toList name.toList || startsWithL "http".toList name.toList then
      .convertDeb name (debName name)
    else if (lookupPkg index.packages name).isSome then
      .downloadRepo name
    else
      .errNotFound name

/-! ## Foreign package converter (src/network.rs lines 77-112)

Only the binary-scan stage decides claim C8. The extracted tree is
modelled by `dirEntries : String → Option (List (String × Bool))` mapping
a conventional binary directory (relative to the extraction root) to its
entries as (file name, is regular file); `none` means the directory is
absent or unreadable. -/

/-- The fixed ordered list of conventional binary directories probed by
`download_deb` (src/network.rs lines 81-85). -/
def binDirs : List String := ["usr/bin", "usr/local/bin", "bin"]

/-- The binary scan of `download_deb` (src/network.rs lines 87-101): every
regular file found under the probed directories, in probe order. -/
def collectBinaries (dirEntries : String → Option (List (String × Bool))) :
    List String :=
  binDirs.foldl
    (fun acc d =>
      match dirEntries d with
      | some es => es.foldl (fun a e => if e.2 then a ++ [e.1] else a) acc
      | none => acc) []

/-- `download_deb` (src/network.rs lines 28-119) from the end of payload
extraction onward: scan the conventional binary directories; if no
regular file was found, fail before anything is staged or packaged;
otherwise return the staged file names and the synthesized manifest that
are handed to `create_package`. -/
def download_deb (dirEntries : String → Option (List (String × Bool)))
    (name : String) : Except String (List String × String) :=
  let bins := collectBinaries dirEntries
  if bins.isEmpty then .error "no binaries found in .deb"
  else .ok (bins, "name = " ++ name ++ "\nversion = 1.0.0\n")

/-! ## Repository index regeneration (src/commands.rs lines 305-386)

The package scan result is modelled by `scanned` (the `packages` map
built from `packages/*.pls`); the previously written index file by
`oldIndex : Option RepoIndex` — `none` when the file is missing or fails
to parse, exactly the `.ok().and_then(..).unwrap_or_default()` chain of
lines 363-367. The function returns the index written to `index.json`,
or `none` when the scan found no packages and the file is left alone. -/

/-- `cmd_repo_update` (src/commands.rs lines 305-386) after the scan:
the written index, carrying the previous `bundles` over unchanged. -/
def cmd_repo_update (scanned : List (String × PackageMeta))
    (oldIndex : Option RepoIndex) (today : String) : Option RepoIndex :=
  if scanned.isEmpty then none
  else
    let existingBundles :=
      match oldIndex with
      | some idx => idx.bundles
      | none => []
    some ⟨1, today, scanned, existingBundles⟩

/-! ## Concrete fixtures used by the closed witness and counterexample
theorems below -/

/-- `.ok` test on a modelled install outcome. -/
def exceptOk (r : Except String Unit) : Bool :=
  match r with
  | .ok _ => true
  | .error _ => false

/-- The byte string of the manifest file name `info`. -/
def manifestPathBytes : List Nat := [105, 110, 102, 111]

/-- A two-file tree: the `info` manifest plus one binary under `bin/`. -/
def sampleTree : FileTree :=
  [(manifestPathBytes, [110, 97, 109, 101]), ([98, 105, 110, 47, 97], [255, 0, 7])]

/-- A project directory holding both a Cargo.toml and a CMakeLists.txt. -/
def dualManifestDir : String → Option String := fun f =>
  if f = "Cargo.toml" then some "[package]\nname = \"foo\"\nversion = \"1.2.3\"\n"
  else if f = "CMakeLists.txt" then some "project(bar VERSION 2.0)\n"
  else none

/-- A filesystem on which no path exists. -/
def fsAbsent : String → Bool := fun _ => false

/-- An index with no packages and no bundles. -/
def emptyIndex : RepoIndex := ⟨1, "2026-01-01", [], []⟩

/-- A remote package entry at version 1.1.0. -/
def metaV110 : PackageMeta := ⟨"1.1.0", 0, "", [], ""⟩

/-- A remote package entry at version 1.0.0. -/
def metaV100 : PackageMeta := ⟨"1.0.0", 0, "", [], ""⟩

/-- A remote package entry at version 1.0 (same semantic version as 1.0.0,
different string). -/
def metaV10 : PackageMeta := ⟨"1.0", 0, "", [], ""⟩

/-- An install outcome that fails exactly on package `b`. -/
def installFailB : String → Except String Unit := fun p =>
  if p = "b" then .error "install failed" else .ok ()

/-- An index whose only bundle `x` lists packages a, b, c in order. -/
def bundleIndexX : RepoIndex := ⟨1, "2026-01-01", [], [("x", ["a", "b", "c"])]⟩

/-- A store reader: entry `good` has a manifest, entry `bad` lacks one. -/
def storeGoodBad : String → Option String := fun e =>
  if e = "good" then some "name = good\nversion = 1.0.0\n" else none

/-- An extracted foreign tree with no readable directories at all. -/
def noDirEntries : String → Option (List (String × Bool)) := fun _ => none

/-- A previously written index carrying one bundle. -/
def oldIndexWithBundle : RepoIndex :=
  ⟨1, "2025-01-01", [("z", metaV100)], [("web", ["a", "b"])]⟩

/-! ## Helper lemmas -/

/-- Encoding a tree never shortens it below its entry count. -/
theorem length_le_length_create_package (t : FileTree) :
    t.length ≤ (create_package t).length := by
  induction t with
  | nil => simp [create_package]
  | cons e t ih =>
    have hshape : create_package (e :: t) = encodeEntry e ++ create_package t := by
      simp [create_package]
    rw [hshape, List.length_append, List.length_cons]
    have : 1 ≤ (encodeEntry e).length := by simp [encodeEntry]
    omega

/-- Decoding inverts encoding, given enough fuel. -/
theorem decodeEntries_create_package (t : FileTree) :
    ∀ fuel, t.length ≤ fuel →
      decodeEntries fuel (create_package t) = some t := by
  induction t with
  | nil =>
    intro fuel _
    cases fuel <;> simp [create_package, decodeEntries]
  | cons e t ih =>
    intro fuel hfuel
    cases fuel with
    | zero => simp at hfuel
    | succ fuel =>
      have hshape : create_package (e :: t) =
          e.1.length :: (e.1 ++ (e.2.length :: (e.2 ++ create_package t))) := by
        simp [create_package, encodeEntry]
      rw [hshape]
      simp only [decodeEntries]
      rw [List.take_left, List.drop_left]
      simp only [if_pos rfl]
      rw [List.take_left, List.drop_left]
      simp only [if_pos rfl]
      rw [ih fuel (by simp at hfuel; omega)]
      simp

/-- A fold that appends the selected element per step is a `filterMap`. -/
theorem foldl_select_append {β : Type} (sel : β → Option String) :
    ∀ (l : List β) (acc : List String),
      l.foldl
        (fun acc x =>
          match sel x with
          | some a => acc ++ [a]
          | none => acc) acc =
      acc ++ l.filterMap sel := by
  intro l
  induction l with
  | nil => intro acc; simp
  | cons x l ih =>
    intro acc
    rw [List.foldl_cons, List.filterMap_cons]
    cases hx : sel x with
    | none => simp only [hx]; exact ih acc
    | some a =>
      simp only [hx]
      rw [ih (acc ++ [a])]
      simp

/-- `runBatch` in closed form: success count and ordered failure list. -/
theorem runBatch_eq (install : String → Except String Unit) (pkgs : List String) :
    runBatch install pkgs =
      ((pkgs.filter (fun p => exceptOk (install p))).length,
        pkgs.filter (fun p => !exceptOk (install p))) := by
  suffices h : ∀ (l : List String) (k : Nat) (f : List String),
      l.foldl
        (fun st pkg =>
          match install pkg with
          | .ok _ => (st.1 + 1, st.2)
          | .error _ => (st.1, st.2 ++ [pkg])) (k, f) =
      (k + (l.filter (fun p => exceptOk (install p))).length,
        f ++ l.filter (fun p => !exceptOk (install p))) by
    simpa [runBatch] using h pkgs 0 []
  intro l
  induction l with
  | nil => intro k f; simp
  | cons p l ih =>
    intro k f
    rw [List.foldl_cons]
    cases hp : install p with
    | ok u =>
      have hg : exceptOk (install p) = true := by simp [exceptOk, hp]
      show List.foldl _ (k + 1, f) l = _
      rw [ih (k + 1) f]
      refine Prod.ext ?_ ?_
      · simp [List.filter_cons, hg]; omega
      · simp [List.filter_cons, hg]
    | error e =>
      have hg : exceptOk (install p) = false := by simp [exceptOk, hp]
      show List.foldl _ (k, f ++ [p]) l = _
      rw [ih k (f ++ [p])]
      refine Prod.ext ?_ ?_
      · simp [List.filter_cons, hg]
      · simp [List.filter_cons, hg]

/-- The selection function of the update-plan loop. -/
def updateSel (index : RepoIndex) (nv : String × String) : Option String :=
  match lookupPkg index.packages nv.1 with
  | some remote => if remote.version ≠ nv.2 then some nv.1 else none
  | none => none

/-- The update plan in closed form. -/
theorem computeUpdatePlan_eq (index : RepoIndex) (installed : List (String × String)) :
    computeUpdatePlan index installed = installed.filterMap (updateSel index) := by
  have hstep : (fun (acc : List String) (nv : String × String) =>
      match lookupPkg index.packages nv.1 with
      | some remote => if remote.version ≠ nv.2 then acc ++ [nv.1] else acc
      | none => acc) =
      (fun acc nv =>
        match updateSel index nv with
        | some a => acc ++ [a]
        | none => acc) := by
    funext acc nv
    unfold updateSel
    cases lookupPkg index.packages nv.1 with
    | none => rfl
    | some remote =>
      by_cases hv : remote.version = nv.2 <;> simp [hv]
  unfold computeUpdatePlan
  rw [hstep, foldl_select_append]
  simp

/-- The listing count in closed form. -/
theorem listCount_eq (readInfo : String → Option String) (entries : List String) :
    entries.foldl
      (fun count e =>
        match readInfo e with
        | some _ => count + 1
        | none => count) 0 =
    (entries.filter (fun e => (readInfo e).isSome)).length := by
  suffices h : ∀ (l : List String) (k : Nat),
      l.foldl
        (fun count e =>
          match readInfo e with
          | some _ => count + 1
          | none => count) k =
      k + (l.filter (fun e => (readInfo e).isSome)).length by
    simpa using h entries 0
  intro l
  induction l with
  | nil => intro k; simp
  | cons e l ih =>
    intro k
    rw [List.foldl_cons]
    cases he : readInfo e with
    | none =>
      show List.foldl _ k l = _
      rw [ih k, List.filter_cons]
      simp [he]
    | some c =>
      show List.foldl _ (k + 1) l = _
      rw [ih (k + 1), List.filter_cons]
      simp [he]
      omega

/-- Folding the copy loop over a directory with no regular files adds
nothing. -/
theorem foldl_copy_no_files :
    ∀ (es : List (String × Bool)) (acc : List String),
      (∀ e ∈ es, e.2 = false) →
      es.foldl (fun a e => if e.2 then a ++ [e.1] else a) acc = acc := by
  intro es
  induction es with
  | nil => intro acc _; simp
  | cons e es ih =>
    intro acc h
    have he : e.2 = false := h e (by simp)
    rw [List.foldl_cons, if_neg (by simp [he])]
    exact ih acc (fun x hx => h x (by simp [hx]))

/-- The directory fold of the binary scan stays at its accumulator when no
probed directory holds a regular file. -/
theorem collect_foldl_no_files (dirEntries : String → Option (List (String × Bool))) :
    ∀ (dirs : List String) (acc : List String),
      (∀ d ∈ dirs, ∀ es, dirEntries d = some es → ∀ e ∈ es, e.2 = false) →
      dirs.foldl
        (fun acc d =>
          match dirEntries d with
          | some es => es.foldl (fun a e => if e.2 then a ++ [e.1] else a) acc
          | none => acc) acc = acc := by
  intro dirs
  induction dirs with
  | nil => intro acc _; simp
  | cons d dirs ih =>
    intro acc h
    rw [List.foldl_cons]
    cases hd : dirEntries d with
    | none =>
      show List.foldl _ acc dirs = acc
      exact ih acc (fun x hx => h x (by simp [hx]))
    | some es =>
      show List.foldl _ (es.foldl _ acc) dirs = acc
      rw [foldl_copy_no_files es acc (h d (by simp) es hd)]
      exact ih acc (fun x hx => h x (by simp [hx]))

/-! ## The claims -/

/-- C1: packing a directory tree that contains a manifest file and then
unpacking the result yields back exactly the same tree — the same
relative paths with byte-identical contents — whatever was previously
at the destination. -/
theorem pack_unpack_roundtrip (t : FileTree) (prev : FileTree)
    (_hman : ∃ c, (manifestPathBytes, c) ∈ t) :
    extract_package (create_package t) prev = some t := by
  unfold extract_package
  exact decodeEntries_create_package t _ (length_le_length_create_package t)

/-- C1 witness: the round trip evaluated on a concrete two-file tree. -/
theorem pack_unpack_roundtrip_witness :
    extract_package (create_package sampleTree) [] = some sampleTree :=
  pack_unpack_roundtrip sampleTree [] ⟨[110, 97, 109, 101], by decide⟩

/-- C2: detection probes Cargo.toml, CMakeLists.txt, meson.build, pls.toml
in that fixed order and returns the first candidate that exists, reads,
and parses to a non-empty name; in particular whenever Cargo.toml is
readable and parses to a non-empty name — so also when a CMakeLists.txt
is present alongside it — the Cargo.toml result is selected. -/
theorem detect_project_order (fs : String → Option String) :
    detect_project fs = detectSpec fs ∧
    ∀ cargoContent, fs "Cargo.toml" = some cargoContent →
      (PackageInfo.parse_cargo_toml cargoContent).name ≠ "" →
      detect_project fs =
        some (ProjectType.Rust, PackageInfo.parse_cargo_toml cargoContent) := by
  constructor
  · cases h1 : probe .Rust PackageInfo.parse_cargo_toml (fs "Cargo.toml") <;>
      cases h2 : probe .CMake PackageInfo.parse_cmake (fs "CMakeLists.txt") <;>
        cases h3 : probe .Meson PackageInfo.parse_meson (fs "meson.build") <;>
          cases h4 : probe .PlsToml PackageInfo.parse_pls_toml (fs "pls.toml") <;>
            simp [detect_project, detectSpec, detectionOrder, h1, h2, h3, h4]
  · intro c hc hn
    simp [detect_project, probe, hc, hn]

/-- C2 witness: a directory holding both a Cargo.toml and a
CMakeLists.txt resolves to the Cargo.toml manifest. -/
theorem detect_project_order_witness :
    detect_project dualManifestDir =
      some (ProjectType.Rust,
        PackageInfo.parse_cargo_toml "[package]\nname = \"foo\"\nversion = \"1.2.3\"\n") :=
  (detect_project_order dualManifestDir).2 _ (by decide) (by decide)

/-- C3 counterexample: the identifier http://x/y.deb looks like a path
(it contains a separator) and exists nowhere, yet resolution hands it to
the foreign-archive converter instead of failing NotFound. -/
theorem resolve_notfound_counterexample :
    (("http://x/y.deb".toList.contains '/' ||
        endsWithL ".pls".toList "http://x/y.deb".toList) = true) ∧
    fsAbsent "http://x/y.deb" = false ∧
    resolve_or_download fsAbsent emptyIndex "http://x/y.deb" =
      Resolution.convertDeb "http://x/y.deb" "y" := by
  refine ⟨by decide, rfl, by decide⟩

/-- C3 amended: a path-looking identifier that does not exist on disk is
not rejected; resolution falls through — to foreign-archive conversion
when it ends with .deb or starts with http, else to a repository download
when the index lists it, and only otherwise fails NotFound. -/
theorem resolve_fallthrough (fsExists : String → Bool) (index : RepoIndex)
    (name : String)
    (hlooks : (name.toList.contains '/' || endsWithL ".pls".toList name.toList) = true)
    (hmiss : fsExists name = false) :
    resolve_or_download fsExists index name =
      if endsWithL ".deb".toList name.toList || startsWithL "http".toList name.toList then
        Resolution.convertDeb name (debName name)
      else if (lookupPkg index.packages name).isSome then
        Resolution.downloadRepo name
      else Resolution.errNotFound name := by
  unfold resolve_or_download resolve_package_path
  rw [hlooks, hmiss]
  simp

/-- C3 witness: a nonexistent .pls path that is neither a URL nor a repo
package reaches the final NotFound only after the repo lookup branch. -/
theorem resolve_fallthrough_witness :
    resolve_or_download fsAbsent emptyIndex "a/b.pls" =
      Resolution.errNotFound "a/b.pls" := by
  rw [resolve_fallthrough fsAbsent emptyIndex "a/b.pls" (by decide) rfl]
  decide

/-- C4: the update plan holds exactly the installed names the remote
index lists with a version string differing from the local one under
plain string inequality; names absent from the index are never added.
The closing examples are the two update-diffing cases of the spec plus
the string-inequality case 1.0 versus 1.0.0. -/
theorem update_plan_characterization :
    (∀ (index : RepoIndex) (installed : List (String × String)) (n : String),
      n ∈ computeUpdatePlan index installed ↔
        ∃ v, (n, v) ∈ installed ∧
          ∃ m, lookupPkg index.packages n = some m ∧ m.version ≠ v) ∧
    computeUpdatePlan ⟨1, "", [("bar", metaV110)], []⟩ [("bar", "1.0.0")] = ["bar"] ∧
    computeUpdatePlan ⟨1, "", [("bar", metaV100)], []⟩ [("bar", "1.0.0")] = [] ∧
    computeUpdatePlan ⟨1, "", [("bar", metaV10)], []⟩ [("bar", "1.0.0")] = ["bar"] := by
  refine ⟨?_, by decide, by decide, by decide⟩
  intro index installed n
  rw [computeUpdatePlan_eq, List.mem_filterMap]
  constructor
  · rintro ⟨⟨n', v⟩, hmem, hsel⟩
    unfold updateSel at hsel
    cases hl : lookupPkg index.packages n' with
    | none => rw [hl] at hsel; cases hsel
    | some m =>
      rw [hl] at hsel
      by_cases hv : m.version = v
      · simp [hv] at hsel
      · simp [hv] at hsel
        obtain rfl := hsel
        exact ⟨v, hmem, m, hl, hv⟩
  · rintro ⟨v, hmem, m, hl, hv⟩
    exact ⟨(n, v), hmem, by simp [updateSel, hl, hv]⟩

/-- C5: batch installation is a strictly sequential fold that never
aborts: the report counts exactly the successes, lists exactly the failed
names in order, and every package of the batch is accounted for; on the
bundle a, b, c with b failing the report is 2 succeeded, failed list b. -/
theorem batch_install_isolation :
    (∀ (install : String → Except String Unit) (pkgs : List String),
      runBatch install pkgs =
        ((pkgs.filter (fun p => exceptOk (install p))).length,
          pkgs.filter (fun p => !exceptOk (install p))) ∧
      (runBatch install pkgs).1 + (runBatch install pkgs).2.length = pkgs.length) ∧
    runBatch installFailB ["a", "b", "c"] = (2, ["b"]) ∧
    cmd_bundle bundleIndexX "x" installFailB = .ok (2, ["b"]) ∧
    cmd_update ⟨1, "", [("a", metaV110), ("b", metaV110), ("c", metaV110)], []⟩
      [("a", "1.0.0"), ("b", "1.0.0"), ("c", "1.0.0")] installFailB = (2, ["b"]) := by
  refine ⟨?_, by decide, by rfl, by decide⟩
  intro install pkgs
  refine ⟨runBatch_eq install pkgs, ?_⟩
  rw [runBatch_eq install pkgs]
  exact (List.length_eq_length_filter_add _).symm

/-- C6: listing skips, without raising an error, every store entry whose
manifest cannot be read, and reports exactly the count of parsed entries;
a store with one valid and one manifest-less entry reports 1. -/
theorem list_skips_invalid :
    (∀ (entries : List String) (readInfo : String → Option String),
      cmd_list true (some entries) readInfo =
        .ok ((entries.filter (fun e => (readInfo e).isSome)).length)) ∧
    cmd_list true (some ["good", "bad"]) storeGoodBad = .ok 1 := by
  constructor
  · intro entries readInfo
    simp [cmd_list, listCount_eq]
  · rfl

/-- C7 counterexample: the generic package-info grammar and the
Ecosystem-A grammar do not apply the 0.1.0 default — a manifest without
a version line parses to the empty version string. -/
theorem version_default_counterexample :
    (PackageInfo.parse_info "name = foo").version ≠ "0.1.0" ∧
    (PackageInfo.parse_info "name = foo").version = "" ∧
    (PackageInfo.parse_cargo_toml "[package]\nname = \"foo\"").version ≠ "0.1.0" ∧
    (PackageInfo.parse_cargo_toml "[package]\nname = \"foo\"").version = "" := by
  decide

/-- C7 amended: the 0.1.0 default applies to the CMake, Meson and
explicit pls.toml grammars — whenever their scan finds no version token
the parsed version is 0.1.0, in particular for project(foo) without a
VERSION token — while parse_info and parse_cargo_toml leave the version
empty when the input has none. -/
theorem version_default_amended :
    (∀ content, (PackageInfo.cmakeScan content).2 = [] →
      (PackageInfo.parse_cmake content).version = "0.1.0") ∧
    (∀ content, (PackageInfo.mesonScan content).2 = [] →
      (PackageInfo.parse_meson content).version = "0.1.0") ∧
    (∀ content, (PackageInfo.plsScan content).2.1 = [] →
      (PackageInfo.parse_pls_toml content).version = "0.1.0") ∧
    (PackageInfo.parse_cmake "project(foo)").version = "0.1.0" ∧
    (PackageInfo.parse_info "name = foo").version = "" ∧
    (PackageInfo.parse_cargo_toml "[package]\nname = \"foo\"").version = "" := by
  refine ⟨?_, ?_, ?_, by decide, by decide, by decide⟩
  · intro content h; simp [PackageInfo.parse_cmake, h]
  · intro content h; simp [PackageInfo.parse_meson, h]
  · intro content h; simp [PackageInfo.parse_pls_toml, h]

/-- C7 witness: the default branch of the CMake grammar applied at a
manifest whose project call has no VERSION token. -/
theorem version_default_amended_witness :
    (PackageInfo.parse_cmake "x = 1\nproject(bar)\n").version = "0.1.0" :=
  version_default_amended.1 "x = 1\nproject(bar)\n" (by decide)

/-- C8: when no probed conventional binary directory of the extracted
foreign tree holds a regular file, conversion fails with the no-binaries
NotFound error before any package archive is produced. -/
theorem deb_no_binaries_fails (dirEntries : String → Option (List (String × Bool)))
    (name : String)
    (h : ∀ d ∈ binDirs, ∀ es, dirEntries d = some es → ∀ e ∈ es, e.2 = false) :
    download_deb dirEntries name = .error "no binaries found in .deb" := by
  have hcoll : collectBinaries dirEntries = [] := collect_foldl_no_files dirEntries binDirs [] h
  simp [download_deb, hcoll]

/-- C8 witness: an extracted tree with no readable binary directory at
all fails with the no-binaries error. -/
theorem deb_no_binaries_fails_witness :
    download_deb noDirEntries "pkg" = .error "no binaries found in .deb" :=
  deb_no_binaries_fails noDirEntries "pkg"
    (fun _ _ _ hes => Option.noConfusion hes)

/-- C9: regenerating the repository index recomputes only the packages
mapping; the previously written bundles mapping is carried over
unchanged, and defaults to empty when no prior index exists or parses. -/
theorem repo_update_preserves_bundles (scanned : List (String × PackageMeta))
    (oldIndex : Option RepoIndex) (today : String) (h : scanned ≠ []) :
    cmd_repo_update scanned oldIndex today =
      some ⟨1, today, scanned,
        match oldIndex with
        | some idx => idx.bundles
        | none => []⟩ := by
  unfold cmd_repo_update
  rw [if_neg (by simp [List.isEmpty_iff, h])]

/-- C9 witness: a scan result of one package with a prior index holding
one bundle; the bundle survives, the packages map is the fresh scan. -/
theorem repo_update_preserves_bundles_witness :
    cmd_repo_update [("a", metaV110)] (some oldIndexWithBundle) "2026-10-12" =
      some ⟨1, "2026-10-12", [("a", metaV110)], [("web", ["a", "b"])]⟩ :=
  repo_update_preserves_bundles [("a", metaV110)] (some oldIndexWithBundle)
    "2026-10-12" (by decide)

/-- C10: the duplicated legacy parsers of the monolithic module agree
extensionally with the modular ones on every input. -/
theorem legacy_duplicate_grammars_agree :
    ∀ content, MainSrc.parse_info content = PackageInfo.parse_info content ∧
      MainSrc.parse_cargo_toml content = PackageInfo.parse_cargo_toml content :=
  fun _ => ⟨rfl, rfl⟩

end Pls
